import Mathlib

/-!
Shallow embedding of the Instagram chatbot backend core
(`app.py`, `handlers/delay_handler.py`, `handlers/media_handler.py`,
`handlers/session_manager.py`, `handlers/openai_handler.py`).

Python floats are modelled as rationals, `datetime` instants and
`timedelta` values as rationals, Python strings as Lean `String`
(processed through their character lists), and Python dicts as
insertion-ordered association lists, matching CPython dict semantics
(update in place keeps the position, a fresh key is appended at the end).
-/

namespace InstaBot

/-! ## Word splitting (Python `str.split()` with no arguments) -/

/-- Accumulating splitter behind `pyWords`: splits on runs of whitespace
and drops empty pieces, exactly like argumentless `str.split()`. -/
def wordsAux : List Char → List Char → List (List Char)
  | [], acc => if acc.isEmpty then [] else [acc.reverse]
  | c :: rest, acc =>
    if c.isWhitespace then
      if acc.isEmpty then wordsAux rest [] else acc.reverse :: wordsAux rest []
    else wordsAux rest (c :: acc)

/-- Python `text.split()`: whitespace-delimited words of a string. -/
def pyWords (s : String) : List (List Char) :=
  wordsAux s.data []

/-- Python `len(text.split())`. -/
def wordCount (s : String) : Nat :=
  (pyWords s).length

/-! ## Delay handler (`handlers/delay_handler.py`) -/

/-- The `typing_delay` section of the configuration
(`base_seconds`, `per_word_seconds`, `max_seconds`, `randomness_factor`). -/
structure DelayConfig where
  base_seconds : ℚ
  per_word_seconds : ℚ
  max_seconds : ℚ
  randomness_factor : ℚ
  deriving Repr, DecidableEq

/-- The `typing_delay` defaults hard-coded in `app.py`'s fallback config. -/
def defaultDelayConfig : DelayConfig :=
  ⟨1.0, 0.15, 5.0, 0.3⟩

/-- Python `min(a, b)` on two rationals, kept kernel-computable. -/
def pyMin (a b : ℚ) : ℚ := if b < a then b else a

/-- Python `max(a, b)` on two rationals, kept kernel-computable. -/
def pyMax (a b : ℚ) : ℚ := if a < b then b else a

/-- `DelayHandler.calculate_delay(text, message_type)`.  The call to
`random.uniform(-randomness, randomness)` is modelled by the explicit
parameter `draw`; a theorem quantifying over draws in
`[-randomness_factor, randomness_factor]` covers every possible run. -/
def calculate_delay (cfg : DelayConfig) (text : String) (message_type : String)
    (draw : ℚ) : ℚ :=
  if message_type = "media" ∨ message_type = "voice" then 0.5
  else
    let word_count := wordCount text
    let calculated_delay : ℚ :=
      if word_count ≤ 3 then 0.8 + (word_count * 0.2)
      else cfg.base_seconds + (word_count * cfg.per_word_seconds)
    let capped := pyMin calculated_delay cfg.max_seconds
    let random_factor := 1 + draw
    let final_delay := capped * random_factor
    pyMax 0.5 final_delay

/-! ## Media handler (`handlers/media_handler.py`) -/

/-- Python `str.lower()` on a character list (ASCII case mapping, which
covers every string appearing in the configuration and the claims). -/
def toLowerL (l : List Char) : List Char :=
  l.map Char.toLower

/-- Python substring test `needle in hay` on character lists. -/
def substrB (needle hay : List Char) : Bool :=
  match hay with
  | [] => needle.isEmpty
  | _ :: t => needle.isPrefixOf hay || substrB needle t

/-- One entry of the `media_triggers` configuration table. -/
structure Trigger where
  keywords : List String
  type : String
  path : String
  name : String
  deriving Repr, DecidableEq

/-- The dictionary `check_triggers` returns on a hit
(`{"type": …, "path": …, "name": …}`). -/
structure MediaDescriptor where
  type : String
  path : String
  name : String
  deriving Repr, DecidableEq

/-- The inner `for keyword in keywords` loop of
`MediaHandler.check_triggers`: does any keyword of this trigger occur,
lowercased, inside the lowercased message? -/
def keywordMatch (message_lower : List Char) (keywords : List String) : Bool :=
  match keywords with
  | [] => false
  | k :: rest => substrB (toLowerL k.data) message_lower || keywordMatch message_lower rest

/-- The outer `for trigger in self.keyword_triggers` loop of
`MediaHandler.check_triggers`. -/
def findTrigger (message_lower : List Char) (triggers : List Trigger) :
    Option MediaDescriptor :=
  match triggers with
  | [] => none
  | t :: rest =>
    if keywordMatch message_lower t.keywords then some ⟨t.type, t.path, t.name⟩
    else findTrigger message_lower rest

/-- `MediaHandler.check_triggers(message_text)`. -/
def check_triggers (triggers : List Trigger) (message_text : String) :
    Option MediaDescriptor :=
  findTrigger (toLowerL message_text.data) triggers

/-! ## Session manager (`handlers/session_manager.py`)

The two dicts `self.sessions` and `self.last_activity` are modelled as
insertion-ordered association lists over an arbitrary key type (Python
dict keys here are the user ids handed in by the caller, which may be
`None` when a webhook event lacks `sender.id`).  `datetime.now()` is
modelled by an explicit `now : ℚ` parameter on each mutating call, and
`self.session_timeout` by a `timeout : ℚ` parameter. -/

/-- One stored message dict `{"role": …, "content": …, "timestamp": …}`. -/
structure Turn where
  role : String
  content : String
  timestamp : ℚ
  deriving Repr, DecidableEq

/-- A context entry returned by `get_context` (`{"role": …, "content": …}`). -/
structure CtxMsg where
  role : String
  content : String
  deriving Repr, DecidableEq

/-- Dict lookup `d.get(k)`: value of the entry with key `k`, if any. -/
def alGet {K V : Type} [DecidableEq K] (k : K) (m : List (K × V)) : Option V :=
  match m with
  | [] => none
  | (k', v) :: rest => if k' = k then some v else alGet k rest

/-- Dict assignment `d[k] = v`: update in place if the key is present
(keeping its position), otherwise append at the end — CPython dicts
preserve insertion order exactly this way. -/
def alSet {K V : Type} [DecidableEq K] (k : K) (v : V) (m : List (K × V)) :
    List (K × V) :=
  match m with
  | [] => [(k, v)]
  | (k', v') :: rest => if k' = k then (k, v) :: rest else (k', v') :: alSet k v rest

/-- Dict deletion `del d[k]` guarded by `if k in d` (removes the entry if
present, no-op otherwise). -/
def alDel {K V : Type} [DecidableEq K] (k : K) (m : List (K × V)) : List (K × V) :=
  m.filter (fun p => ¬ p.1 = k)

/-- The mutable state of a `SessionManager` instance. -/
structure SMState (K : Type) where
  sessions : List (K × List Turn)
  last_activity : List (K × ℚ)

/-- A freshly constructed `SessionManager` (both dicts empty). -/
def emptyState (K : Type) : SMState K := ⟨[], []⟩

/-- `SessionManager.clear_session(user_id)`. -/
def clear_session {K : Type} [DecidableEq K] (u : K) (st : SMState K) : SMState K :=
  ⟨alDel u st.sessions, alDel u st.last_activity⟩

/-- `SessionManager._cleanup_old_sessions()`: collect every user whose
last activity is more than `timeout` ago, then `clear_session` each. -/
def cleanup_old_sessions {K : Type} [DecidableEq K] (timeout now : ℚ)
    (st : SMState K) : SMState K :=
  let expired_users := (st.last_activity.filter (fun p => now - p.2 > timeout)).map (·.1)
  expired_users.foldl (fun s u => clear_session u s) st

/-- `SessionManager.add_message(user_id, role, content)`: sweep, append
the new turn (the defaultdict creates a missing entry as `[]`), stamp
last activity, and keep only the last 20 turns when the list exceeds 20. -/
def add_message {K : Type} [DecidableEq K] (timeout : ℚ) (u : K)
    (role content : String) (now : ℚ) (st : SMState K) : SMState K :=
  let st1 := cleanup_old_sessions timeout now st
  let message : Turn := ⟨role, content, now⟩
  let hist := (alGet u st1.sessions).getD [] ++ [message]
  let hist := if hist.length > 20 then hist.drop (hist.length - 20) else hist
  ⟨alSet u hist st1.sessions, alSet u now st1.last_activity⟩

/-- Python `l[-n:]` for `n > 0`: the last `n` elements (the whole list
when it is shorter than `n`). -/
def takeLast {α : Type} (n : Nat) (l : List α) : List α :=
  l.drop (l.length - n)

/-- `SessionManager.get_context(user_id, max_messages)`: the last
`max_messages` stored turns with timestamps stripped; `[]` for unknown
users (plain `.get`, so no defaultdict insertion happens). -/
def get_context {K : Type} [DecidableEq K] (u : K) (max_messages : Nat)
    (st : SMState K) : List CtxMsg :=
  let messages := (alGet u st.sessions).getD []
  (takeLast max_messages messages).map (fun m => ⟨m.role, m.content⟩)

/-- `SessionManager.get_active_count()`: sweep, then count live sessions.
Returns both the mutated state and the count. -/
def get_active_count {K : Type} [DecidableEq K] (timeout now : ℚ)
    (st : SMState K) : SMState K × Nat :=
  let st1 := cleanup_old_sessions timeout now st
  (st1, st1.sessions.length)

/-- `SessionManager.get_total_count()`:
`len(self.sessions) + len(self.last_activity)`. -/
def get_total_count {K : Type} (st : SMState K) : Nat :=
  st.sessions.length + st.last_activity.length

/-- One public `SessionManager` call, with the `datetime.now()` instant
observed by the mutating calls made explicit. -/
inductive SMOp (K : Type) where
  | add (u : K) (role content : String) (now : ℚ)
  | clear (u : K)
  | active (now : ℚ)
  | context (u : K) (max_messages : Nat)
  | total
  deriving Repr

/-- State transition of one public call (`get_context` and
`get_total_count` read without mutating; `get_active_count` sweeps). -/
def runOp {K : Type} [DecidableEq K] (timeout : ℚ) (st : SMState K) :
    SMOp K → SMState K
  | .add u role content now => add_message timeout u role content now st
  | .clear u => clear_session u st
  | .active now => (get_active_count timeout now st).1
  | .context _ _ => st
  | .total => st

/-- The state after a whole sequence of public calls on a fresh manager. -/
def runOps {K : Type} [DecidableEq K] (timeout : ℚ) (ops : List (SMOp K)) :
    SMState K :=
  ops.foldl (runOp timeout) (emptyState K)

/-! ## Python call binding (`openai_handler.py` vs the calls in `app.py`)

`OpenAIHandler.generate_response` is declared as
`generate_response(self, user_message, conversation_history=None)`.
`app.py` invokes it with an extra `user_info` argument (by keyword in
`handle_user_message`, positionally in `chat_endpoint`).  Whether such a
call raises `TypeError` is decided by CPython argument binding, embedded
here for plain positional-or-keyword parameters. -/

/-- A Python function signature: positional-or-keyword parameter names
(after `self`) and how many trailing parameters carry defaults. -/
structure PySig where
  params : List String
  defaults : Nat
  deriving Repr, DecidableEq

/-- A call site: how many positional arguments are supplied (after
`self`) and which keyword names. -/
structure PyCall where
  posArgs : Nat
  kwargs : List String
  deriving Repr, DecidableEq

/-- CPython argument binding for plain positional-or-keyword parameters:
the call raises `TypeError` unless the positional arguments fit, every
keyword names a parameter not already bound positionally, and every
parameter without a default gets bound. -/
def bindsOk (sig : PySig) (c : PyCall) : Bool :=
  decide (c.posArgs ≤ sig.params.length)
    && c.kwargs.all (fun k => sig.params.contains k)
    && c.kwargs.all (fun k => !(sig.params.take c.posArgs).contains k)
    && (sig.params.take (sig.params.length - sig.defaults)).all
        (fun p => (sig.params.take c.posArgs).contains p || c.kwargs.contains p)

/-- The signature of `OpenAIHandler.generate_response(self, user_message,
conversation_history=None)`. -/
def generate_response_sig : PySig :=
  ⟨["user_message", "conversation_history"], 1⟩

/-- The call in `app.py:handle_user_message`:
`generate_response(message_text, conversation_history, user_info=user_info)`. -/
def orchestratorRespCall : PyCall := ⟨2, ["user_info"]⟩

/-- The call in `app.py:chat_endpoint`:
`generate_response(message_text, conversation_history, user_info)`. -/
def chatRespCall : PyCall := ⟨3, []⟩

/-! ## Orchestrator (`app.py`)

`handle_user_message` is embedded as a state transformer that also
produces a trace of its externally visible effects.  The external
responder is a parameter `respond` standing for a successful OpenAI
round-trip; it is only consulted when the Python call to
`generate_response` binds (otherwise the `TypeError` propagates to the
function's catch-all `except`, which logs and swallows it).
`instagram_handler.get_user_info` never raises (it catches internally
and returns `{}`), so it contributes no control flow. -/

/-- What one `handle_user_message` run did, step by step. -/
structure HandleTrace where
  /-- descriptor handed to `send_media_response`, if a trigger fired -/
  mediaTriggered : Option MediaDescriptor
  /-- the `(message_text, conversation_history)` argument pair evaluated
  for the `generate_response` call that is attempted -/
  respCallArgs : Option (String × List CtxMsg)
  /-- did the attempted call enter the responder body (bind succeed)? -/
  responderEntered : Bool
  /-- did the call raise `TypeError` instead? -/
  typeErrorRaised : Bool
  /-- text handed to `send_text_with_delay`, if reached -/
  textSent : Option String
  /-- typing delay computed for the response, if reached -/
  delayComputed : Option ℚ
  /-- was an assistant turn recorded in the session store? -/
  assistantRecorded : Bool
  deriving Repr, DecidableEq

/-- `app.py:handle_user_message(sender_id, recipient_id, message_text)`.
`timeout`, `now` and `draw` make the session clock and the jitter draw
explicit; `respond` is the external responder's successful behaviour. -/
def handle_user_message {K : Type} [DecidableEq K] (timeout : ℚ)
    (triggers : List Trigger) (cfg : DelayConfig)
    (respond : String → List CtxMsg → String) (sender : K)
    (message_text : String) (now draw : ℚ) (st : SMState K) :
    SMState K × HandleTrace :=
  let st1 := add_message timeout sender "user" message_text now st
  let media_response := check_triggers triggers message_text
  let conversation_history := get_context sender 10 st1
  if bindsOk generate_response_sig orchestratorRespCall then
    let ai_response := respond message_text conversation_history
    let typing_delay := calculate_delay cfg ai_response "text" draw
    let st2 := add_message timeout sender "assistant" ai_response now st1
    (st2, ⟨media_response, some (message_text, conversation_history), true, false,
      some ai_response, some typing_delay, true⟩)
  else
    (st1, ⟨media_response, some (message_text, conversation_history), false, true,
      none, none, false⟩)

/-- Python `str.strip()`: drop leading and trailing whitespace. -/
def pyStrip (s : String) : String :=
  String.mk (((s.data.dropWhile Char.isWhitespace).reverse.dropWhile
    Char.isWhitespace).reverse)

/-- Outcome of one `/chat` request: final store state, HTTP status, and
the `typing_delay` included in a successful JSON response. -/
structure ChatResult (K : Type) where
  state : SMState K
  status : Nat
  typing_delay : Option ℚ

/-- `app.py:chat_endpoint`: returns the final session state and the HTTP
status code.  An empty (stripped) message raises `HTTPException(400)`
inside the `try`, which the catch-all `except Exception` converts into
`HTTPException(500)`; a failing `generate_response` binding raises
`TypeError`, likewise converted to a 500. -/
def chat_endpoint {K : Type} [DecidableEq K] (timeout : ℚ) (cfg : DelayConfig)
    (respond : String → List CtxMsg → String) (user_id : K)
    (message : String) (now draw : ℚ) (st : SMState K) : ChatResult K :=
  let message_text := pyStrip message
  if message_text.data.isEmpty then ⟨st, 500, none⟩
  else
    let st1 := add_message timeout user_id "user" message_text now st
    let conversation_history := get_context user_id 10 st1
    if bindsOk generate_response_sig chatRespCall then
      let ai_response := respond message_text conversation_history
      let typing_delay := calculate_delay cfg ai_response "text" draw
      let st2 := add_message timeout user_id "assistant" ai_response now st1
      ⟨st2, 200, some typing_delay⟩
    else ⟨st1, 500, none⟩

/-! ## Webhook entry (`app.py:process_webhook`) -/

/-- The `message` object of a messaging event (`text` may be absent). -/
structure InMessage where
  text : Option String
  deriving Repr, DecidableEq

/-- One messaging event: `sender.id` and `recipient.id` may be absent
(`.get` chains yield `None`), and the `"message"` key may be absent. -/
structure MessagingEvent where
  sender : Option String
  recipient : Option String
  message : Option InMessage
  deriving Repr, DecidableEq

/-- One entry of the webhook payload. -/
structure WebhookEntry where
  messaging : List MessagingEvent
  deriving Repr, DecidableEq

/-- The decoded webhook body. -/
structure WebhookData where
  object : String
  entry : List WebhookEntry
  deriving Repr, DecidableEq

/-- Handling of a single messaging event inside `process_webhook`'s
loops: only events carrying a `"message"` key spawn
`handle_user_message`, with `message.get("text", "")` defaulting a
missing text to the empty string.  Returns the new store state and the
trace of the spawned handler, if one ran. -/
def processEvent (timeout : ℚ) (triggers : List Trigger) (cfg : DelayConfig)
    (respond : String → List CtxMsg → String) (now draw : ℚ)
    (st : SMState (Option String)) (e : MessagingEvent) :
    SMState (Option String) × Option HandleTrace :=
  match e.message with
  | none => (st, none)
  | some m =>
    let message_text := m.text.getD ""
    let (st', tr) := handle_user_message timeout triggers cfg respond e.sender
      message_text now draw st
    (st', some tr)

/-- `app.py:process_webhook(data)`: parses the payload and runs every
messaging event (the spawned tasks are modelled as running to
completion in order).  Returns the final store state and the traces of
the handlers that ran. -/
def process_webhook (timeout : ℚ) (triggers : List Trigger) (cfg : DelayConfig)
    (respond : String → List CtxMsg → String) (now draw : ℚ)
    (data : WebhookData) (st : SMState (Option String)) :
    SMState (Option String) × List HandleTrace :=
  if data.object ≠ "instagram" then (st, [])
  else
    (data.entry.flatMap (·.messaging)).foldl
      (fun acc e =>
        let (st', tr) := processEvent timeout triggers cfg respond now draw acc.1 e
        (st', acc.2 ++ tr.toList))
      (st, [])

/-! ## Helper lemmas -/

theorem pyMin_eq_min (a b : ℚ) : pyMin a b = min a b := by
  unfold pyMin
  rcases lt_or_le b a with h | h
  · rw [if_pos h]
    exact (min_eq_right h.le).symm
  · rw [if_neg (not_lt.mpr h)]
    exact (min_eq_left h).symm

theorem pyMax_eq_max (a b : ℚ) : pyMax a b = max a b := by
  unfold pyMax
  rcases lt_or_le a b with h | h
  · rw [if_pos h]
    exact (max_eq_right h.le).symm
  · rw [if_neg (not_lt.mpr h)]
    exact (max_eq_left h).symm

theorem alGet_alSet_self {K V : Type} [DecidableEq K] (k : K) (v : V)
    (m : List (K × V)) : alGet k (alSet k v m) = some v := by
  induction m with
  | nil => simp [alGet, alSet]
  | cons hd tl ih =>
    by_cases h : hd.1 = k
    · simp [alGet, alSet, h]
    · simpa [alGet, alSet, h] using ih

theorem alGet_alSet_of_ne {K V : Type} [DecidableEq K] {k k' : K} (v : V)
    (m : List (K × V)) (h : k ≠ k') : alGet k' (alSet k v m) = alGet k' m := by
  induction m with
  | nil => simp [alGet, alSet, h]
  | cons hd tl ih =>
    by_cases hh : hd.1 = k
    · simp only [alSet, hh, if_pos]
      simp [alGet, h, hh]
    · simp only [alSet, hh, if_neg, ite_false]
      by_cases hk : hd.1 = k'
      · simp [alGet, hk]
      · simpa [alGet, hk] using ih

theorem alGet_alDel_self {K V : Type} [DecidableEq K] (k : K)
    (m : List (K × V)) : alGet k (alDel k m) = none := by
  induction m with
  | nil => simp [alGet, alDel]
  | cons hd tl ih =>
    by_cases h : hd.1 = k
    · simpa [alDel, List.filter, h] using ih
    · simpa [alDel, List.filter, alGet, h] using ih

theorem alDel_cons {K V : Type} [DecidableEq K] (k : K) (hd : K × V)
    (tl : List (K × V)) :
    alDel k (hd :: tl) = if hd.1 = k then alDel k tl else hd :: alDel k tl := by
  by_cases hh : hd.1 = k <;> simp [alDel, List.filter_cons, hh]

theorem alGet_alDel_of_ne {K V : Type} [DecidableEq K] {k k' : K}
    (m : List (K × V)) (h : k ≠ k') : alGet k' (alDel k m) = alGet k' m := by
  induction m with
  | nil => simp [alGet, alDel]
  | cons hd tl ih =>
    rcases hd with ⟨a, b⟩
    rw [alDel_cons]
    by_cases hh : a = k
    · simp only [hh, if_pos]
      have hne : ¬ a = k' := hh ▸ fun e => h e
      rw [ih]
      simp [alGet, hh ▸ hne]
    · simp only [hh, ite_false]
      by_cases hk : a = k'
      · simp [alGet, hk]
      · simp only [alGet, hk, ite_false]
        exact ih

theorem alGet_mem {K V : Type} [DecidableEq K] {k : K} {v : V}
    {m : List (K × V)} (h : alGet k m = some v) : (k, v) ∈ m := by
  induction m with
  | nil => simp [alGet] at h
  | cons hd tl ih =>
    rcases hd with ⟨a, b⟩
    by_cases hh : a = k
    · simp only [alGet, hh, if_pos] at h
      injection h with h2
      rw [← hh, ← h2]
      exact List.mem_cons_self _ _
    · simp only [alGet, hh, ite_false] at h
      exact List.mem_cons_of_mem _ (ih h)

theorem alGet_eq_of_mem_nodup {K V : Type} [DecidableEq K] {m : List (K × V)}
    (hnd : (m.map Prod.fst).Nodup) {k : K} {v : V} (h : (k, v) ∈ m) :
    alGet k m = some v := by
  induction m with
  | nil => simp at h
  | cons hd tl ih =>
    rw [List.map_cons, List.nodup_cons] at hnd
    rcases List.mem_cons.mp h with he | ht
    · rw [← he]
      simp [alGet]
    · by_cases hh : hd.1 = k
      · exact absurd (hh ▸ List.mem_map_of_mem Prod.fst ht) hnd.1
      · simp only [alGet, hh, ite_false]
        exact ih hnd.2 ht

/-- `foldl clear_session` over a user list acts componentwise on the two
dicts. -/
theorem foldl_clear_eq {K : Type} [DecidableEq K] (us : List K)
    (st : SMState K) :
    us.foldl (fun s u => clear_session u s) st
      = ⟨us.foldl (fun m u => alDel u m) st.sessions,
         us.foldl (fun m u => alDel u m) st.last_activity⟩ := by
  induction us generalizing st with
  | nil => rfl
  | cons hd tl ih => exact ih (clear_session hd st)

theorem alGet_foldl_alDel {K V : Type} [DecidableEq K] (us : List K)
    (k : K) (m : List (K × V)) :
    alGet k (us.foldl (fun mm u => alDel u mm) m)
      = if k ∈ us then none else alGet k m := by
  induction us generalizing m with
  | nil => simp
  | cons hd tl ih =>
    rw [List.foldl_cons, ih]
    by_cases ht : k ∈ tl
    · simp [ht, List.mem_cons]
    · by_cases he : k = hd
      · simp [ht, he, alGet_alDel_self, List.mem_cons]
      · have : hd ≠ k := fun e => he e.symm
        simp [ht, he, alGet_alDel_of_ne _ this, List.mem_cons]

/-! ## Claim theorems -/

/-- C4: the claim says `get_total_count` is monotonically non-decreasing
and counts distinct users ever seen.  The code instead returns
`len(self.sessions) + len(self.last_activity)`: after one message from
`"u1"` it is 2 (not 1 distinct user), and clearing (or expiring) that
session drops it back to 0 — a strict decrease, contradicting both the
spec and the method's own docstring ("total number of conversations ever
handled"). -/
theorem claim_C4 :
    get_total_count (add_message 1800 "u1" "user" "hi" 0 (emptyState String)) = 2 ∧
    get_total_count (clear_session "u1"
      (add_message 1800 "u1" "user" "hi" 0 (emptyState String))) = 0 ∧
    ¬ (get_total_count (add_message 1800 "u1" "user" "hi" 0 (emptyState String))
        ≤ get_total_count (clear_session "u1"
            (add_message 1800 "u1" "user" "hi" 0 (emptyState String)))) := by
  refine ⟨rfl, rfl, ?_⟩
  decide

/-- C3: `generate_response(self, user_message, conversation_history=None)`
does not accept a `user_info` argument, so the orchestrator's keyword
call and the `/chat` endpoint's three-positional call both fail CPython
argument binding and raise `TypeError` before the responder's internal
fallback can run.  `handle_user_message`'s catch-all swallows the error:
no text is sent and no assistant turn is recorded, while `/chat` answers
HTTP 500 for every non-empty message. -/
theorem claim_C3 :
    (generate_response_sig.params.contains "user_info" = false ∧
     bindsOk generate_response_sig orchestratorRespCall = false ∧
     bindsOk generate_response_sig chatRespCall = false) ∧
    (∀ (K : Type) [DecidableEq K] (timeout : ℚ) (triggers : List Trigger)
       (cfg : DelayConfig) (respond : String → List CtxMsg → String) (sender : K)
       (text : String) (now draw : ℚ) (st : SMState K),
       (handle_user_message timeout triggers cfg respond sender text now draw
          st).2.typeErrorRaised = true ∧
       (handle_user_message timeout triggers cfg respond sender text now draw
          st).2.responderEntered = false ∧
       (handle_user_message timeout triggers cfg respond sender text now draw
          st).2.textSent = none ∧
       (handle_user_message timeout triggers cfg respond sender text now draw
          st).2.assistantRecorded = false ∧
       (handle_user_message timeout triggers cfg respond sender text now draw
          st).1 = add_message timeout sender "user" text now st) ∧
    (∀ (K : Type) [DecidableEq K] (timeout : ℚ) (cfg : DelayConfig)
       (respond : String → List CtxMsg → String) (user_id : K)
       (message : String) (now draw : ℚ) (st : SMState K),
       ¬ (pyStrip message).data.isEmpty →
       (chat_endpoint timeout cfg respond user_id message now draw st).status
         = 500) := by
  refine ⟨⟨rfl, rfl, rfl⟩, ?_, ?_⟩
  · intro K _ timeout triggers cfg respond sender text now draw st
    exact ⟨rfl, rfl, rfl, rfl, rfl⟩
  · intro K _ timeout cfg respond user_id message now draw st h
    simp only [chat_endpoint]
    rw [if_neg h]
    rfl

/-- Witness for C3 at a concrete non-empty `/chat` message. -/
theorem claim_C3_witness :
    (¬ (pyStrip "hi").data.isEmpty) ∧
    (chat_endpoint 1800 defaultDelayConfig (fun _ _ => "ok") "test_user" "hi"
       0 0 (emptyState String)).status = 500 :=
  ⟨by decide,
   claim_C3.2.2 String 1800 defaultDelayConfig (fun _ _ => "ok") "test_user"
     "hi" 0 0 (emptyState String) (by decide)⟩

/-- C2 fails on the code at the event `{sender: "U1", text: "hi"}`: the
conversation context passed to the attempted responder call is the
single just-recorded user turn (not empty, because `add_message` runs
before `get_context`), and the call raises `TypeError`, so no assistant
turn is appended and no delay is computed. -/
theorem claim_C2_cex :
    (handle_user_message 1800 [] defaultDelayConfig (fun _ _ => "I am a bot")
       "U1" "hi" 0 0 (emptyState String)).2.respCallArgs
      = some ("hi", [⟨"user", "hi"⟩]) ∧
    ¬ ([(⟨"user", "hi"⟩ : CtxMsg)] = ([] : List CtxMsg)) ∧
    (handle_user_message 1800 [] defaultDelayConfig (fun _ _ => "I am a bot")
       "U1" "hi" 0 0 (emptyState String)).2.assistantRecorded = false ∧
    (handle_user_message 1800 [] defaultDelayConfig (fun _ _ => "I am a bot")
       "U1" "hi" 0 0 (emptyState String)).2.delayComputed = none :=
  ⟨rfl, by decide, rfl, rfl⟩

/-- C2 (amended): for the inbound event `{sender: "U1", text: "hi"}` with
no prior session, processing records exactly one user turn; the
responder call is then attempted with the conversation context equal to
that single just-recorded turn, raises `TypeError` (the extra
`user_info` argument does not bind), and the orchestrator swallows it —
so no assistant turn is appended, no delay is computed, and no text
reply is sent. -/
theorem claim_C2 :
    ∀ (timeout now draw : ℚ) (triggers : List Trigger) (cfg : DelayConfig)
      (respond : String → List CtxMsg → String),
      (handle_user_message timeout triggers cfg respond "U1" "hi" now draw
         (emptyState String)).1.sessions = [("U1", [⟨"user", "hi", now⟩])] ∧
      (handle_user_message timeout triggers cfg respond "U1" "hi" now draw
         (emptyState String)).1.last_activity = [("U1", now)] ∧
      (handle_user_message timeout triggers cfg respond "U1" "hi" now draw
         (emptyState String)).2.respCallArgs
        = some ("hi", [⟨"user", "hi"⟩]) ∧
      (handle_user_message timeout triggers cfg respond "U1" "hi" now draw
         (emptyState String)).2.typeErrorRaised = true ∧
      (handle_user_message timeout triggers cfg respond "U1" "hi" now draw
         (emptyState String)).2.assistantRecorded = false ∧
      (handle_user_message timeout triggers cfg respond "U1" "hi" now draw
         (emptyState String)).2.delayComputed = none ∧
      (handle_user_message timeout triggers cfg respond "U1" "hi" now draw
         (emptyState String)).2.textSent = none := by
  intro timeout now draw triggers cfg respond
  exact ⟨rfl, rfl, rfl, rfl, rfl, rfl, rfl⟩

/-- C5 fails on the code: an event that has a `message` but no
`message.text` is NOT ignored — `message.get("text", "")` substitutes
the empty string and a full `handle_user_message` run happens, recording
a user turn `""` for the sender and attempting the responder call. -/
theorem claim_C5_cex :
    (process_webhook 1800 [] defaultDelayConfig (fun _ _ => "ok") 0 0
       ⟨"instagram", [⟨[⟨some "U1", some "PAGE", some ⟨none⟩⟩]⟩]⟩
       (emptyState (Option String))).1.sessions
      = [(some "U1", [⟨"user", "", 0⟩])] ∧
    (process_webhook 1800 [] defaultDelayConfig (fun _ _ => "ok") 0 0
       ⟨"instagram", [⟨[⟨some "U1", some "PAGE", some ⟨none⟩⟩]⟩]⟩
       (emptyState (Option String))).2
      = [⟨none, some ("", [⟨"user", ""⟩]), false, true, none, none, false⟩] :=
  ⟨rfl, rfl⟩

/-- C5 (amended): only events whose `message` field is missing entirely
are ignored without side effects; an event carrying a `message` without
`text` is processed as an empty-text message — a `"user"` turn with
content `""` is recorded for the sender (a missing sender is likewise
processed, under the null sender key) and the responder call is
attempted on it. -/
theorem claim_C5 :
    (∀ (timeout : ℚ) (triggers : List Trigger) (cfg : DelayConfig)
       (respond : String → List CtxMsg → String) (now draw : ℚ)
       (st : SMState (Option String)) (e : MessagingEvent),
       e.message = none →
       processEvent timeout triggers cfg respond now draw st e = (st, none)) ∧
    (∀ (timeout : ℚ) (triggers : List Trigger) (cfg : DelayConfig)
       (respond : String → List CtxMsg → String) (now draw : ℚ)
       (st : SMState (Option String)) (e : MessagingEvent),
       e.message = some ⟨none⟩ →
       processEvent timeout triggers cfg respond now draw st e
         = ((handle_user_message timeout triggers cfg respond e.sender "" now
              draw st).1,
            some (handle_user_message timeout triggers cfg respond e.sender ""
              now draw st).2)) ∧
    (∀ (timeout : ℚ) (triggers : List Trigger) (cfg : DelayConfig)
       (respond : String → List CtxMsg → String) (now draw : ℚ)
       (st : SMState (Option String)) (sender : Option String),
       (handle_user_message timeout triggers cfg respond sender "" now draw
          st).1 = add_message timeout sender "user" "" now st ∧
       (handle_user_message timeout triggers cfg respond sender "" now draw
          st).2.respCallArgs ≠ none) := by
  refine ⟨?_, ?_, ?_⟩
  · intro timeout triggers cfg respond now draw st e h
    rcases e with ⟨s, r, msg⟩
    cases msg with
    | none => rfl
    | some m => exact absurd h (by simp)
  · intro timeout triggers cfg respond now draw st e h
    rcases e with ⟨s, r, msg⟩
    cases msg with
    | none => exact absurd h (by simp)
    | some m =>
      have hm : m = ⟨none⟩ := by injection h
      rw [hm]
      rfl
  · intro timeout triggers cfg respond now draw st sender
    exact ⟨rfl, by intro h; exact Option.noConfusion h⟩

/-- Witness for C5 at a concrete event without a `message` field and a
concrete event whose `message` lacks `text`. -/
theorem claim_C5_witness :
    ((⟨some "U1", some "PAGE", none⟩ : MessagingEvent).message = none ∧
     processEvent 1800 [] defaultDelayConfig (fun _ _ => "ok") 0 0
       (emptyState (Option String)) ⟨some "U1", some "PAGE", none⟩
       = (emptyState (Option String), none)) ∧
    ((⟨some "U1", some "PAGE", some ⟨none⟩⟩ : MessagingEvent).message
       = some ⟨none⟩ ∧
     processEvent 1800 [] defaultDelayConfig (fun _ _ => "ok") 0 0
       (emptyState (Option String)) ⟨some "U1", some "PAGE", some ⟨none⟩⟩
       = ((handle_user_message 1800 [] defaultDelayConfig (fun _ _ => "ok")
            (some "U1") "" 0 0 (emptyState (Option String))).1,
          some (handle_user_message 1800 [] defaultDelayConfig
            (fun _ _ => "ok") (some "U1") "" 0 0
            (emptyState (Option String))).2)) :=
  ⟨⟨rfl, claim_C5.1 1800 [] defaultDelayConfig (fun _ _ => "ok") 0 0
      (emptyState (Option String)) ⟨some "U1", some "PAGE", none⟩ rfl⟩,
   ⟨rfl, claim_C5.2.1 1800 [] defaultDelayConfig (fun _ _ => "ok") 0 0
      (emptyState (Option String)) ⟨some "U1", some "PAGE", some ⟨none⟩⟩ rfl⟩⟩

/-- C1 fails on the code: the clamp to `max_seconds` happens BEFORE the
jitter factor is applied, so a positive draw pushes the result above
`max_seconds`.  With the default configuration
(`max_seconds = 5`, `randomness_factor = 0.3`), a 30-word reply and the
in-range draw `0.3` give `min(1 + 30·0.15, 5) · 1.3 = 6.5 > 5`. -/
theorem claim_C1_cex :
    (-defaultDelayConfig.randomness_factor ≤ (0.3 : ℚ) ∧
      (0.3 : ℚ) ≤ defaultDelayConfig.randomness_factor) ∧
    calculate_delay defaultDelayConfig
      (String.mk ((List.replicate 30 ['w', ' ']).flatten)) "text" 0.3 = 13/2 ∧
    ¬ (13/2 ≤ defaultDelayConfig.max_seconds) := by
  refine ⟨⟨by norm_num [defaultDelayConfig], by norm_num [defaultDelayConfig]⟩,
    ?_, by norm_num [defaultDelayConfig]⟩
  have h : wordCount (String.mk ((List.replicate 30 ['w', ' ']).flatten)) = 30 := by
    decide
  norm_num [calculate_delay, h, pyMin, pyMax, defaultDelayConfig]
  exact ⟨by decide, by decide⟩

/-- C1 (amended): for every text and every jitter draw in
`[-randomness_factor, randomness_factor]` (with non-negative
configuration values), `calculate_delay(text, "text")` lies in
`[0.5, max(0.5, max_seconds · (1 + randomness_factor))]`: the base is
clamped to `max_seconds` BEFORE the jitter factor is applied, and the
result is floored at 0.5 seconds afterwards, so the upper end can
exceed `max_seconds` by the factor `1 + randomness_factor`. -/
theorem claim_C1 (cfg : DelayConfig) (text : String) (draw : ℚ)
    (h1 : -cfg.randomness_factor ≤ draw) (h2 : draw ≤ cfg.randomness_factor)
    (hb : 0 ≤ cfg.base_seconds) (hp : 0 ≤ cfg.per_word_seconds)
    (hm : 0 ≤ cfg.max_seconds) :
    1/2 ≤ calculate_delay cfg text "text" draw ∧
    calculate_delay cfg text "text" draw
      ≤ pyMax (1/2) (cfg.max_seconds * (1 + cfg.randomness_factor)) := by
  have hr : 0 ≤ cfg.randomness_factor := by linarith
  have hcond : ¬ (("text" : String) = "media" ∨ ("text" : String) = "voice") := by
    push_neg
    exact ⟨by decide, by decide⟩
  unfold calculate_delay
  rw [if_neg hcond]
  simp only [pyMin_eq_min, pyMax_eq_max]
  set w := wordCount text with hw
  set calcd : ℚ :=
    (if w ≤ 3 then 0.8 + (w * 0.2) else cfg.base_seconds + (w * cfg.per_word_seconds))
    with hcalcd
  have hcalc0 : 0 ≤ calcd := by
    rw [hcalcd]
    by_cases h : w ≤ 3
    · rw [if_pos h]
      have : (0 : ℚ) ≤ (w : ℚ) := Nat.cast_nonneg w
      norm_num
      linarith
    · rw [if_neg h]
      have : (0 : ℚ) ≤ (w : ℚ) := Nat.cast_nonneg w
      have := mul_nonneg this hp
      linarith
  have hcap0 : 0 ≤ min calcd cfg.max_seconds := le_min hcalc0 hm
  have hcapm : min calcd cfg.max_seconds ≤ cfg.max_seconds := min_le_right _ _
  constructor
  · have := le_max_left (0.5 : ℚ) (min calcd cfg.max_seconds * (1 + draw))
    norm_num at this ⊢
  · have hkey : min calcd cfg.max_seconds * (1 + draw)
        ≤ max (1/2) (cfg.max_seconds * (1 + cfg.randomness_factor)) := by
      rcases le_or_lt 0 (1 + draw) with hpos | hneg
      · calc min calcd cfg.max_seconds * (1 + draw)
            ≤ cfg.max_seconds * (1 + draw) :=
              mul_le_mul_of_nonneg_right hcapm hpos
          _ ≤ cfg.max_seconds * (1 + cfg.randomness_factor) :=
              mul_le_mul_of_nonneg_left (by linarith) hm
          _ ≤ max (1/2) (cfg.max_seconds * (1 + cfg.randomness_factor)) :=
              le_max_right _ _
      · have hle : min calcd cfg.max_seconds * (1 + draw) ≤ 0 :=
          mul_nonpos_of_nonneg_of_nonpos hcap0 hneg.le
        have := le_max_left (1/2 : ℚ)
          (cfg.max_seconds * (1 + cfg.randomness_factor))
        linarith
    have hhalf : (0.5 : ℚ) ≤ max (1/2) (cfg.max_seconds * (1 + cfg.randomness_factor)) := by
      have := le_max_left (1/2 : ℚ) (cfg.max_seconds * (1 + cfg.randomness_factor))
      norm_num
    exact max_le hhalf hkey

/-- Witness for C1 at the default configuration, the text `"hi"` and the
draw 0. -/
theorem claim_C1_witness :
    (-defaultDelayConfig.randomness_factor ≤ (0 : ℚ) ∧
     (0 : ℚ) ≤ defaultDelayConfig.randomness_factor ∧
     0 ≤ defaultDelayConfig.base_seconds ∧
     0 ≤ defaultDelayConfig.per_word_seconds ∧
     0 ≤ defaultDelayConfig.max_seconds) ∧
    (1/2 ≤ calculate_delay defaultDelayConfig "hi" "text" 0 ∧
     calculate_delay defaultDelayConfig "hi" "text" 0
       ≤ pyMax (1/2) (defaultDelayConfig.max_seconds
           * (1 + defaultDelayConfig.randomness_factor))) :=
  ⟨⟨by norm_num [defaultDelayConfig], by norm_num [defaultDelayConfig],
    by norm_num [defaultDelayConfig], by norm_num [defaultDelayConfig],
    by norm_num [defaultDelayConfig]⟩,
   claim_C1 defaultDelayConfig "hi" 0 (by norm_num [defaultDelayConfig])
     (by norm_num [defaultDelayConfig]) (by norm_num [defaultDelayConfig])
     (by norm_num [defaultDelayConfig]) (by norm_num [defaultDelayConfig])⟩

/-- C8: for category `"text"`, the un-jittered base that
`calculate_delay` clamps and jitters is `0.8 + 0.2·w` for word counts
`w ≤ 3` (including `w = 0`) and `base_seconds + w·per_word_seconds`
otherwise — exhibited by rewriting the whole function around that
piecewise base. -/
theorem claim_C8 :
    ∀ (cfg : DelayConfig) (text : String) (draw : ℚ),
      calculate_delay cfg text "text" draw
        = pyMax 0.5 (pyMin
            (if wordCount text ≤ 3
             then 0.8 + 0.2 * (wordCount text : ℚ)
             else cfg.base_seconds + (wordCount text : ℚ) * cfg.per_word_seconds)
            cfg.max_seconds * (1 + draw)) := by
  intro cfg text draw
  have hcond : ¬ (("text" : String) = "media" ∨ ("text" : String) = "voice") := by
    push_neg
    exact ⟨by decide, by decide⟩
  unfold calculate_delay
  rw [if_neg hcond]
  by_cases h : wordCount text ≤ 3
  · simp only [h, if_true, ite_true]
    ring_nf
  · simp only [h, if_false, ite_false]

theorem isPrefixOf_eq_true_iff (n h : List Char) :
    n.isPrefixOf h = true ↔ ∃ post, n ++ post = h := by
  induction n generalizing h with
  | nil =>
    constructor
    · intro _
      exact ⟨h, rfl⟩
    · intro _
      cases h with
      | nil => rfl
      | cons b bs => rfl
  | cons a as ih =>
    cases h with
    | nil =>
      constructor
      · intro hf
        exact absurd hf (by simp [List.isPrefixOf])
      · rintro ⟨post, hp⟩
        exact absurd hp (by simp)
    | cons b bs =>
      simp only [List.isPrefixOf, Bool.and_eq_true, beq_iff_eq, ih]
      constructor
      · rintro ⟨hab, post, hp⟩
        exact ⟨post, by rw [List.cons_append, hab, hp]⟩
      · rintro ⟨post, hp⟩
        rw [List.cons_append] at hp
        injection hp with h1 h2
        exact ⟨h1, post, h2⟩

theorem substrB_eq_true_iff (n hay : List Char) :
    substrB n hay = true ↔ ∃ pre post, pre ++ n ++ post = hay := by
  induction hay with
  | nil =>
    simp only [substrB, List.isEmpty_iff]
    constructor
    · intro hn
      exact ⟨[], [], by simp [hn]⟩
    · rintro ⟨pre, post, hp⟩
      rcases List.append_eq_nil.mp hp with ⟨h1, h2⟩
      exact (List.append_eq_nil.mp h1).2
  | cons c t ih =>
    simp only [substrB, Bool.or_eq_true, isPrefixOf_eq_true_iff, ih]
    constructor
    · rintro (⟨post, hp⟩ | ⟨pre, post, hp⟩)
      · exact ⟨[], post, by simpa using hp⟩
      · exact ⟨c :: pre, post, by rw [← hp]; simp⟩
    · rintro ⟨pre, post, hp⟩
      cases pre with
      | nil =>
        left
        exact ⟨post, by simpa using hp⟩
      | cons p pre' =>
        right
        rw [List.cons_append, List.cons_append] at hp
        injection hp with h1 h2
        exact ⟨pre', post, h2⟩

theorem keywordMatch_eq_true_iff (ml : List Char) (ks : List String) :
    keywordMatch ml ks = true ↔
      ∃ k ∈ ks, ∃ pre post, pre ++ toLowerL k.data ++ post = ml := by
  induction ks with
  | nil => simp [keywordMatch]
  | cons k rest ih =>
    simp only [keywordMatch, Bool.or_eq_true, substrB_eq_true_iff, ih,
      List.mem_cons]
    constructor
    · rintro (⟨pre, post, hp⟩ | ⟨k', hk', hex⟩)
      · exact ⟨k, Or.inl rfl, pre, post, hp⟩
      · exact ⟨k', Or.inr hk', hex⟩
    · rintro ⟨k', hk' | hk', hex⟩
      · left
        rw [← hk']
        exact hex
      · right
        exact ⟨k', hk', hex⟩

theorem findTrigger_eq_none_iff (ml : List Char) (ts : List Trigger) :
    findTrigger ml ts = none ↔ ∀ t ∈ ts, keywordMatch ml t.keywords = false := by
  induction ts with
  | nil => simp [findTrigger]
  | cons t rest ih =>
    cases hb : keywordMatch ml t.keywords with
    | true => simp [findTrigger, hb]
    | false => simp [findTrigger, hb, ih]

/-- C7: `check_triggers` lowercases the input and scans triggers in table
order, keywords in list order; it returns the descriptor (type, path,
name) of the first trigger with any keyword occurring case-insensitively
as a substring of the text, and `None` exactly when no keyword of any
trigger occurs; in particular for the table
`[{kw:["shop"]}, {kw:["SHOP","buy"]}]` and the input `"let's Shop now"`
the first trigger's descriptor is returned. -/
theorem claim_C7 :
    (∀ (triggers : List Trigger) (text : String),
       check_triggers triggers text = none ↔
       ∀ t ∈ triggers, ∀ k ∈ t.keywords,
         ¬ ∃ pre post, pre ++ toLowerL k.data ++ post = toLowerL text.data) ∧
    (∀ (t : Trigger) (rest : List Trigger) (text : String),
       (∃ k ∈ t.keywords,
          ∃ pre post, pre ++ toLowerL k.data ++ post = toLowerL text.data) →
       check_triggers (t :: rest) text = some ⟨t.type, t.path, t.name⟩) ∧
    (∀ (t : Trigger) (rest : List Trigger) (text : String),
       (∀ k ∈ t.keywords,
          ¬ ∃ pre post, pre ++ toLowerL k.data ++ post = toLowerL text.data) →
       check_triggers (t :: rest) text = check_triggers rest text) ∧
    (check_triggers
       [⟨["shop"], "image", "img_a", "shop picture"⟩,
        ⟨["SHOP", "buy"], "image", "img_b", "second shop"⟩]
       (String.mk ['l', 'e', 't', Char.ofNat 39, 's', ' ', 'S', 'h', 'o', 'p',
         ' ', 'n', 'o', 'w'])
       = some ⟨"image", "img_a", "shop picture"⟩) := by
  refine ⟨?_, ?_, ?_, by decide⟩
  · intro triggers text
    rw [check_triggers, findTrigger_eq_none_iff]
    constructor
    · intro h t ht k hk hex
      have hf := h t ht
      rw [(keywordMatch_eq_true_iff _ _).mpr ⟨k, hk, hex⟩] at hf
      exact Bool.noConfusion hf
    · intro h t ht
      apply Bool.eq_false_iff.mpr
      intro hkm
      obtain ⟨k, hk, hex⟩ := (keywordMatch_eq_true_iff _ _).mp hkm
      exact h t ht k hk hex
  · intro t rest text hex
    have hkm : keywordMatch (toLowerL text.data) t.keywords = true :=
      (keywordMatch_eq_true_iff _ _).mpr hex
    simp [check_triggers, findTrigger, hkm]
  · intro t rest text hno
    have hkm : keywordMatch (toLowerL text.data) t.keywords = false := by
      apply Bool.eq_false_iff.mpr
      intro hkm
      obtain ⟨k, hk, hex⟩ := (keywordMatch_eq_true_iff _ _).mp hkm
      exact hno k hk hex
    simp [check_triggers, findTrigger, hkm]

/-- Witness for C7: the first-trigger tie-break applied at the concrete
two-trigger table of the claim. -/
theorem claim_C7_witness :
    (∃ k ∈ (⟨["shop"], "image", "img_a", "shop picture"⟩ : Trigger).keywords,
       ∃ pre post, pre ++ toLowerL k.data ++ post
         = toLowerL (String.mk ['l', 'e', 't', Char.ofNat 39, 's', ' ', 'S',
             'h', 'o', 'p', ' ', 'n', 'o', 'w']).data) ∧
    check_triggers
      [⟨["shop"], "image", "img_a", "shop picture"⟩,
       ⟨["SHOP", "buy"], "image", "img_b", "second shop"⟩]
      (String.mk ['l', 'e', 't', Char.ofNat 39, 's', ' ', 'S', 'h', 'o', 'p',
        ' ', 'n', 'o', 'w'])
      = some ⟨"image", "img_a", "shop picture"⟩ :=
  ⟨⟨"shop", by decide,
    ['l', 'e', 't', Char.ofNat 39, 's', ' '], [' ', 'n', 'o', 'w'], by decide⟩,
   claim_C7.2.1 ⟨["shop"], "image", "img_a", "shop picture"⟩
     [⟨["SHOP", "buy"], "image", "img_b", "second shop"⟩]
     (String.mk ['l', 'e', 't', Char.ofNat 39, 's', ' ', 'S', 'h', 'o', 'p',
       ' ', 'n', 'o', 'w'])
     ⟨"shop", by decide,
      ['l', 'e', 't', Char.ofNat 39, 's', ' '], [' ', 'n', 'o', 'w'], by decide⟩⟩

theorem cleanup_eq {K : Type} [DecidableEq K] (timeout now : ℚ) (st : SMState K) :
    cleanup_old_sessions timeout now st
      = ⟨((st.last_activity.filter (fun p => now - p.2 > timeout)).map (·.1)).foldl
           (fun m u => alDel u m) st.sessions,
         ((st.last_activity.filter (fun p => now - p.2 > timeout)).map (·.1)).foldl
           (fun m u => alDel u m) st.last_activity⟩ := by
  unfold cleanup_old_sessions
  exact foldl_clear_eq _ _

theorem alGet_cleanup_sessions {K : Type} [DecidableEq K] (timeout now : ℚ)
    (st : SMState K) (u : K) :
    alGet u (cleanup_old_sessions timeout now st).sessions
      = if u ∈ (st.last_activity.filter (fun p => now - p.2 > timeout)).map (·.1)
        then none else alGet u st.sessions := by
  rw [cleanup_eq]
  exact alGet_foldl_alDel _ _ _

theorem alGet_cleanup_last {K : Type} [DecidableEq K] (timeout now : ℚ)
    (st : SMState K) (u : K) :
    alGet u (cleanup_old_sessions timeout now st).last_activity
      = if u ∈ (st.last_activity.filter (fun p => now - p.2 > timeout)).map (·.1)
        then none else alGet u st.last_activity := by
  rw [cleanup_eq]
  exact alGet_foldl_alDel _ _ _

theorem cleanup_hist_le {K : Type} [DecidableEq K] (timeout now : ℚ)
    (st : SMState K)
    (h : ∀ u, ((alGet u st.sessions).getD []).length ≤ 20) (u : K) :
    ((alGet u (cleanup_old_sessions timeout now st).sessions).getD []).length
      ≤ 20 := by
  rw [alGet_cleanup_sessions]
  by_cases hm : u ∈ (st.last_activity.filter
      (fun p => now - p.2 > timeout)).map (·.1)
  · simp [hm]
  · rw [if_neg hm]
    exact h u

theorem runOp_hist_le {K : Type} [DecidableEq K] (timeout : ℚ) (st : SMState K)
    (op : SMOp K) (h : ∀ u, ((alGet u st.sessions).getD []).length ≤ 20) :
    ∀ u, ((alGet u (runOp timeout st op).sessions).getD []).length ≤ 20 := by
  intro u
  cases op with
  | add u' role content now =>
    simp only [runOp, add_message]
    by_cases he : u' = u
    · subst he
      rw [alGet_alSet_self]
      have h0 : ((alGet u' (cleanup_old_sessions timeout now st).sessions).getD
          []).length ≤ 20 := cleanup_hist_le timeout now st h u'
      set h0l := (alGet u' (cleanup_old_sessions timeout now st).sessions).getD []
      by_cases hl : (h0l ++ [(⟨role, content, now⟩ : Turn)]).length > 20
      · rw [if_pos hl]
        simp only [Option.getD_some, List.length_drop]
        omega
      · rw [if_neg hl]
        simp only [Option.getD_some]
        omega
    · rw [alGet_alSet_of_ne _ _ he]
      exact cleanup_hist_le timeout now st h u
  | clear u' =>
    simp only [runOp, clear_session]
    by_cases he : u = u'
    · subst he
      rw [alGet_alDel_self]
      simp
    · rw [alGet_alDel_of_ne _ (fun e => he e.symm)]
      exact h u
  | active now =>
    simp only [runOp, get_active_count]
    exact cleanup_hist_le timeout now st h u
  | context u' mm => exact h u
  | total => exact h u

theorem foldl_hist_le {K : Type} [DecidableEq K] (timeout : ℚ)
    (ops : List (SMOp K)) (st : SMState K)
    (h : ∀ u, ((alGet u st.sessions).getD []).length ≤ 20) :
    ∀ u, ((alGet u (ops.foldl (runOp timeout) st).sessions).getD []).length
      ≤ 20 := by
  induction ops generalizing st with
  | nil => exact h
  | cons op rest ih => exact ih (runOp timeout st op) (runOp_hist_le timeout st op h)

/-- C6: after any sequence of public `SessionManager` calls on a fresh
manager, every user's stored history has length at most 20; and one
`add_message` always leaves the user's history equal to the last 20
elements of (history after the sweep) ++ [new turn] — the oldest turns
are dropped first. -/
theorem claim_C6 {K : Type} [DecidableEq K] :
    (∀ (timeout : ℚ) (ops : List (SMOp K)) (u : K),
       ((alGet u (runOps timeout ops).sessions).getD []).length ≤ 20) ∧
    (∀ (timeout : ℚ) (u : K) (role content : String) (now : ℚ)
       (st : SMState K),
       (alGet u (add_message timeout u role content now st).sessions).getD []
         = takeLast 20
             (((alGet u (cleanup_old_sessions timeout now st).sessions).getD [])
               ++ [⟨role, content, now⟩])) := by
  constructor
  · intro timeout ops u
    apply foldl_hist_le timeout ops (emptyState K)
    intro v
    simp [emptyState, alGet]
  · intro timeout u role content now st
    simp only [add_message]
    rw [alGet_alSet_self]
    set h0l := (alGet u (cleanup_old_sessions timeout now st).sessions).getD []
    by_cases hl : (h0l ++ [(⟨role, content, now⟩ : Turn)]).length > 20
    · rw [if_pos hl]
      rfl
    · rw [if_neg hl]
      simp only [Option.getD_some, takeLast]
      have : (h0l ++ [(⟨role, content, now⟩ : Turn)]).length - 20 = 0 := by omega
      rw [this, List.drop_zero]

/-- C9: any session whose idle time strictly exceeds the timeout is
swept away by `get_active_count` (absent from both dicts, hence from the
returned count, which is exactly the number of surviving sessions),
while every non-expired user keeps both their session history and their
last-activity timestamp unchanged. -/
theorem claim_C9 {K : Type} [DecidableEq K] (timeout now : ℚ) (st : SMState K)
    (hnd : (st.last_activity.map Prod.fst).Nodup) (u : K) (t : ℚ)
    (hu : alGet u st.last_activity = some t) (hexp : now - t > timeout) :
    alGet u (get_active_count timeout now st).1.sessions = none ∧
    alGet u (get_active_count timeout now st).1.last_activity = none ∧
    (get_active_count timeout now st).2
      = (get_active_count timeout now st).1.sessions.length ∧
    (∀ (v : K) (tv : ℚ), alGet v st.last_activity = some tv →
       ¬ (now - tv > timeout) →
       alGet v (get_active_count timeout now st).1.sessions
         = alGet v st.sessions ∧
       alGet v (get_active_count timeout now st).1.last_activity = some tv) := by
  have hfst : (get_active_count timeout now st).1
      = cleanup_old_sessions timeout now st := rfl
  have hmem : u ∈ (st.last_activity.filter
      (fun p => now - p.2 > timeout)).map (·.1) :=
    List.mem_map.mpr ⟨(u, t),
      List.mem_filter.mpr ⟨alGet_mem hu, by simpa using hexp⟩, rfl⟩
  refine ⟨?_, ?_, rfl, ?_⟩
  · rw [hfst, alGet_cleanup_sessions, if_pos hmem]
  · rw [hfst, alGet_cleanup_last, if_pos hmem]
  · intro v tv hv hnv
    have hvnot : v ∉ (st.last_activity.filter
        (fun p => now - p.2 > timeout)).map (·.1) := by
      intro hvm
      obtain ⟨⟨v', s⟩, hin, hfsteq⟩ := List.mem_map.mp hvm
      obtain ⟨hmem', hp⟩ := List.mem_filter.mp hin
      have hs : now - s > timeout := by simpa using hp
      have hv' : v' = v := hfsteq
      subst hv'
      have : alGet v' st.last_activity = some s :=
        alGet_eq_of_mem_nodup hnd hmem'
      rw [hv] at this
      injection this with he
      rw [he] at hnv
      exact hnv hs
    constructor
    · rw [hfst, alGet_cleanup_sessions, if_neg hvnot]
    · rw [hfst, alGet_cleanup_last, if_neg hvnot]
      exact hv

/-- Witness for C9: the user `"a"` (idle 100 > timeout 30) is swept; the
user `"b"` (idle 0) keeps history and timestamp. -/
theorem claim_C9_witness :
    ((["a", "b"] : List String).Nodup ∧
     alGet "a" [("a", (0 : ℚ)), ("b", 100)] = some 0 ∧
     (100 : ℚ) - 0 > 30) ∧
    (alGet "a" (get_active_count 30 100
        (⟨[("a", [⟨"user", "x", 0⟩]), ("b", [⟨"user", "y", 100⟩])],
          [("a", 0), ("b", 100)]⟩ : SMState String)).1.sessions = none ∧
     alGet "a" (get_active_count 30 100
        (⟨[("a", [⟨"user", "x", 0⟩]), ("b", [⟨"user", "y", 100⟩])],
          [("a", 0), ("b", 100)]⟩ : SMState String)).1.last_activity = none ∧
     (get_active_count 30 100
        (⟨[("a", [⟨"user", "x", 0⟩]), ("b", [⟨"user", "y", 100⟩])],
          [("a", 0), ("b", 100)]⟩ : SMState String)).2
       = (get_active_count 30 100
          (⟨[("a", [⟨"user", "x", 0⟩]), ("b", [⟨"user", "y", 100⟩])],
            [("a", 0), ("b", 100)]⟩ : SMState String)).1.sessions.length ∧
     (∀ (v : String) (tv : ℚ),
        alGet v [("a", (0 : ℚ)), ("b", 100)] = some tv →
        ¬ ((100 : ℚ) - tv > 30) →
        alGet v (get_active_count 30 100
          (⟨[("a", [⟨"user", "x", 0⟩]), ("b", [⟨"user", "y", 100⟩])],
            [("a", 0), ("b", 100)]⟩ : SMState String)).1.sessions
          = alGet v [("a", [(⟨"user", "x", 0⟩ : Turn)]),
              ("b", [⟨"user", "y", 100⟩])] ∧
        alGet v (get_active_count 30 100
          (⟨[("a", [⟨"user", "x", 0⟩]), ("b", [⟨"user", "y", 100⟩])],
            [("a", 0), ("b", 100)]⟩ : SMState String)).1.last_activity
          = some tv)) :=
  ⟨⟨by decide, rfl, by norm_num⟩,
   claim_C9 30 100
     (⟨[("a", [⟨"user", "x", 0⟩]), ("b", [⟨"user", "y", 100⟩])],
       [("a", 0), ("b", 100)]⟩ : SMState String)
     (by decide) "a" 0 rfl (by norm_num)⟩

theorem mapFst_alSet {K V : Type} [DecidableEq K] (k : K) (v : V)
    (m : List (K × V)) :
    (alSet k v m).map Prod.fst
      = if k ∈ m.map Prod.fst then m.map Prod.fst
        else m.map Prod.fst ++ [k] := by
  induction m with
  | nil => simp [alSet]
  | cons hd tl ih =>
    rcases hd with ⟨a, b⟩
    by_cases h : a = k
    · simp [alSet, h, List.mem_cons]
    · have h' : ¬ (k = a) := fun he => h he.symm
      by_cases hm : k ∈ tl.map Prod.fst
      · simp [alSet, h, h', hm, List.mem_cons, ih]
      · simp [alSet, h, h', hm, List.mem_cons, ih]

theorem mapFst_alDel {K V : Type} [DecidableEq K] (k : K) (m : List (K × V)) :
    (alDel k m).map Prod.fst
      = (m.map Prod.fst).filter (fun x => !(decide (x = k))) := by
  induction m with
  | nil => simp [alDel]
  | cons hd tl ih =>
    rcases hd with ⟨a, b⟩
    by_cases h : a = k
    · simp [alDel_cons, h, List.filter_cons, ih]
    · simp [alDel_cons, h, List.filter_cons, ih]

theorem mapFst_foldl_alDel {K V : Type} [DecidableEq K] (us : List K)
    (m : List (K × V)) :
    (us.foldl (fun mm u => alDel u mm) m).map Prod.fst
      = us.foldl (fun ks u => ks.filter (fun x => !(decide (x = u))))
          (m.map Prod.fst) := by
  induction us generalizing m with
  | nil => rfl
  | cons hd tl ih =>
    rw [List.foldl_cons, List.foldl_cons, ← mapFst_alDel]
    exact ih _

theorem cleanup_keys_eq {K : Type} [DecidableEq K] (timeout now : ℚ)
    (st : SMState K)
    (h : st.sessions.map Prod.fst = st.last_activity.map Prod.fst) :
    (cleanup_old_sessions timeout now st).sessions.map Prod.fst
      = (cleanup_old_sessions timeout now st).last_activity.map Prod.fst := by
  rw [cleanup_eq]
  simp only
  rw [mapFst_foldl_alDel, mapFst_foldl_alDel, h]

theorem runOp_keys_eq {K : Type} [DecidableEq K] (timeout : ℚ) (st : SMState K)
    (op : SMOp K)
    (h : st.sessions.map Prod.fst = st.last_activity.map Prod.fst) :
    (runOp timeout st op).sessions.map Prod.fst
      = (runOp timeout st op).last_activity.map Prod.fst := by
  cases op with
  | add u role content now =>
    have hcl := cleanup_keys_eq timeout now st h
    simp only [runOp, add_message]
    rw [mapFst_alSet, mapFst_alSet, hcl]
  | clear u =>
    simp only [runOp, clear_session]
    rw [mapFst_alDel, mapFst_alDel, h]
  | active now =>
    simp only [runOp, get_active_count]
    exact cleanup_keys_eq timeout now st h
  | context u mm => exact h
  | total => exact h

theorem foldl_keys_eq {K : Type} [DecidableEq K] (timeout : ℚ)
    (ops : List (SMOp K)) (st : SMState K)
    (h : st.sessions.map Prod.fst = st.last_activity.map Prod.fst) :
    (ops.foldl (runOp timeout) st).sessions.map Prod.fst
      = (ops.foldl (runOp timeout) st).last_activity.map Prod.fst := by
  induction ops generalizing st with
  | nil => exact h
  | cons op rest ih => exact ih (runOp timeout st op) (runOp_keys_eq timeout st op h)

/-- C10: after every sequence of public `SessionManager` calls on a
fresh manager, the key lists of `self.sessions` and `self.last_activity`
coincide, so `get_total_count` always returns exactly twice the number
of currently tracked sessions. -/
theorem claim_C10 {K : Type} [DecidableEq K] (timeout : ℚ)
    (ops : List (SMOp K)) :
    (runOps timeout ops).sessions.map Prod.fst
      = (runOps timeout ops).last_activity.map Prod.fst ∧
    get_total_count (runOps timeout ops)
      = 2 * (runOps timeout ops).sessions.length := by
  have h : (runOps timeout ops).sessions.map Prod.fst
      = (runOps timeout ops).last_activity.map Prod.fst :=
    foldl_keys_eq timeout ops (emptyState K) rfl
  refine ⟨h, ?_⟩
  have hlen : (runOps timeout ops).sessions.length
      = (runOps timeout ops).last_activity.length := by
    have h2 := congrArg List.length h
    simpa using h2
  unfold get_total_count
  omega

end InstaBot
